import Mathlib

/-!
Verification of the RON serializer (`src/ser/mod.rs`) against its
natural-language specification.

The serializer is embedded shallowly:

* `PrettyConfig` mirrors the Rust `PrettyConfig` struct (the `_dummy`
  marker field carries no information and is dropped).
* `Serializer` mirrors the Rust `Serializer` struct; the nested
  `(PrettyConfig, Pretty)` pair is flattened into the `config` and
  `indent` fields.  The output buffer is modelled as a `List Char`
  (Rust `String::push`/`pop` operate on whole code points, so a list
  of characters is the faithful granularity).
* Every `serialize_*` method of the Rust `ser::Serializer`
  implementation, and the element/end methods of the seven container
  traits, become Lean functions on `Serializer`.
* A value to be serialized is a tree in the mutual inductive `Value`;
  its constructors correspond one-to-one to the shapes of the serde
  data model that the Rust code handles.  `Value.vfail` models a
  caller whose `Serialize` implementation signals
  `ser::Error::custom(msg)` instead of producing output; every other
  constructor serializes by driving exactly the protocol calls that
  serde would issue for that shape.
* Floating point: the engine only ever appends `v.to_string()` of an
  `f64` (an `f32` is first widened losslessly by `v as f64`).  A
  finite double whose Rust `Display` output is a plain decimal is
  modelled by `FloatRepr`: the integer `m` and scale `e` of that
  shortest round-trip decimal `m * 10^(-e)`; `FloatRepr.fmt` renders
  it the way Rust `Display` does (for example `4.0 : f64` displays as
  `"4"`, i.e. `⟨4, 0⟩`, and `3.5` as `"3.5"`, i.e. `⟨35, 1⟩`).
-/

/-- Serialization error (Rust `enum Error`).  Its single constructor is
the `Error::Message(String)` case. -/
inductive Error where
  | Message (msg : String)
deriving Repr, DecidableEq

/-- Pretty serializer configuration (Rust `struct PrettyConfig`). -/
structure PrettyConfig where
  new_line : String
  indentor : String
  separate_tuple_members : Bool
  struct_names : Bool
  add_space : Bool
deriving Repr, DecidableEq

/-- `PrettyConfig::default()` on a non-Windows target: newline `"\n"`,
four-space indent, tuple members not separated, struct names emitted,
spaces added after separators. -/
def PrettyConfig.default : PrettyConfig :=
  { new_line := "\n"
    indentor := "    "
    separate_tuple_members := false
    struct_names := true
    add_space := true }

/-- `PrettyConfig::basic(struct_names)`: starts from the default and
empties `new_line` and `indentor`, disables tuple separation and
`add_space`, and sets `struct_names` from the argument. -/
def PrettyConfig.basic (struct_names : Bool) : PrettyConfig :=
  { new_line := ""
    indentor := ""
    separate_tuple_members := false
    struct_names := struct_names
    add_space := false }

/-- The RON serializer state (Rust `struct Serializer` together with
its nested `Pretty { indent }`). -/
structure Serializer where
  output : List Char
  config : PrettyConfig
  indent : Nat
deriving Repr, DecidableEq

namespace Serializer

/-- `Serializer::separate_tuple_members`. -/
def separate_tuple_members (s : Serializer) : Bool :=
  s.config.separate_tuple_members

/-- `Serializer::struct_names`. -/
def struct_names (s : Serializer) : Bool :=
  s.config.struct_names

/-- `Serializer::new_line`. -/
def new_line (s : Serializer) : String :=
  s.config.new_line

/-- `Serializer::space`: a single space if `add_space` is set, else
the empty string. -/
def space (s : Serializer) : String :=
  if s.config.add_space then " " else ""

/-- `self.output += text` (appending a Rust string slice). -/
def push (s : Serializer) (t : String) : Serializer :=
  { s with output := s.output ++ t.data }

/-- `self.output.push(c)` (appending one character). -/
def pushChar (s : Serializer) (c : Char) : Serializer :=
  { s with output := s.output ++ [c] }

/-- `Serializer::start_indent`: increment the indent depth, then
append the configured newline string. -/
def start_indent (s : Serializer) : Serializer :=
  { s with indent := s.indent + 1
           output := s.output ++ s.config.new_line.data }

/-- `Serializer::indent`: append the indent string repeated
`indent` times. -/
def writeIndent (s : Serializer) : Serializer :=
  { s with output := s.output ++ (List.replicate s.indent s.config.indentor.data).flatten }

/-- `Serializer::end_indent`: decrement the indent depth, then append
the indent string repeated (new depth) times.  Rust decrements a
`usize`; in every balanced call sequence the depth is positive here,
so truncated `Nat` subtraction agrees with the source. -/
def end_indent (s : Serializer) : Serializer :=
  { s with indent := s.indent - 1
           output := s.output ++ (List.replicate (s.indent - 1) s.config.indentor.data).flatten }

/-- `self.output.pop()` iterated `n` times (`String::pop` removes one
whole character from the end). -/
def popN (s : Serializer) (n : Nat) : Serializer :=
  { s with output := s.output.take (s.output.length - n) }

end Serializer

/-- Model of a finite `f64` whose Rust `Display` output is a plain
decimal: `m` and `e` are the integer and scale of the shortest
round-trip decimal representation `m * 10^(-e)` that `Display`
prints. -/
structure FloatRepr where
  m : Int
  e : Nat
deriving Repr, DecidableEq

/-- Rust `f64::to_string()` on the value represented by `f`: the
decimal digits of `m` with a point inserted `e` digits from the right
(no point at all when `e = 0`, a leading zero when the integer part is
empty). -/
def FloatRepr.fmt (f : FloatRepr) : String :=
  if f.e = 0 then toString f.m
  else
    let digits := (toString f.m.natAbs).data
    let digits := if digits.length ≤ f.e
      then List.replicate (f.e + 1 - digits.length) '0' ++ digits
      else digits
    let sign := if f.m < 0 then "-".data else []
    String.mk (sign ++ digits.take (digits.length - f.e) ++ ('.' :: digits.drop (digits.length - f.e)))

mutual

/-- A value of the serde data model, as far as the RON serializer
distinguishes shapes.  `vfail` models a caller value whose
`Serialize` implementation returns `Err(Error::custom(msg))`. -/
inductive Value where
  | vbool (b : Bool)
  | vi8 (v : Int)
  | vi16 (v : Int)
  | vi32 (v : Int)
  | vi64 (v : Int)
  | vu8 (v : Nat)
  | vu16 (v : Nat)
  | vu32 (v : Nat)
  | vu64 (v : Nat)
  | vf32 (f : FloatRepr)
  | vf64 (f : FloatRepr)
  | vchar (c : Char)
  | vstr (s : String)
  | vbytes (bs : List Nat)
  | vnone
  | vsome (v : Value)
  | vunit
  | vunitStruct (name : String)
  | vunitVariant (variant : String)
  | vnewtypeStruct (name : String) (v : Value)
  | vnewtypeVariant (variant : String) (v : Value)
  | vseq (elems : ValueList)
  | vtuple (elems : ValueList)
  | vtupleStruct (name : String) (elems : ValueList)
  | vtupleVariant (variant : String) (elems : ValueList)
  | vmap (entries : EntryList)
  | vstruct (name : String) (fields : FieldList)
  | vstructVariant (variant : String) (fields : FieldList)
  | vfail (msg : String)

/-- A list of values (sequence or tuple elements). -/
inductive ValueList where
  | nil
  | cons (v : Value) (vs : ValueList)

/-- A list of map entries (key, value). -/
inductive EntryList where
  | nil
  | cons (k : Value) (v : Value) (es : EntryList)

/-- A list of struct fields (name, value). -/
inductive FieldList where
  | nil
  | cons (key : String) (v : Value) (fs : FieldList)

end

/-- `serialize_bool`: literal `true` / `false`. -/
def serialize_bool (s : Serializer) (v : Bool) : Serializer :=
  s.push (if v then "true" else "false")

/-- `serialize_i64`: append the decimal text of the value. -/
def serialize_i64 (s : Serializer) (v : Int) : Serializer :=
  s.push (toString v)

/-- The `i64` value of the `i8` bit pattern holding `v` (`v as i64`;
the identity on the `i8` range). -/
def sext8 (v : Int) : Int := (v + 2 ^ 7) % 2 ^ 8 - 2 ^ 7

/-- The `i64` value of the `i16` bit pattern holding `v`. -/
def sext16 (v : Int) : Int := (v + 2 ^ 15) % 2 ^ 16 - 2 ^ 15

/-- The `i64` value of the `i32` bit pattern holding `v`. -/
def sext32 (v : Int) : Int := (v + 2 ^ 31) % 2 ^ 32 - 2 ^ 31

/-- `serialize_i8`: `self.serialize_i64(v as i64)`. -/
def serialize_i8 (s : Serializer) (v : Int) : Serializer :=
  serialize_i64 s (sext8 v)

/-- `serialize_i16`: `self.serialize_i64(v as i64)`. -/
def serialize_i16 (s : Serializer) (v : Int) : Serializer :=
  serialize_i64 s (sext16 v)

/-- `serialize_i32`: `self.serialize_i64(v as i64)`. -/
def serialize_i32 (s : Serializer) (v : Int) : Serializer :=
  serialize_i64 s (sext32 v)

/-- `serialize_u64`: append the decimal text of the value. -/
def serialize_u64 (s : Serializer) (v : Nat) : Serializer :=
  s.push (toString v)

/-- `serialize_u8`: `self.serialize_u64(v as u64)` (the bit pattern is
`v % 2^8`, the identity on the `u8` range). -/
def serialize_u8 (s : Serializer) (v : Nat) : Serializer :=
  serialize_u64 s (v % 2 ^ 8)

/-- `serialize_u16`: `self.serialize_u64(v as u64)`. -/
def serialize_u16 (s : Serializer) (v : Nat) : Serializer :=
  serialize_u64 s (v % 2 ^ 16)

/-- `serialize_u32`: `self.serialize_u64(v as u64)`. -/
def serialize_u32 (s : Serializer) (v : Nat) : Serializer :=
  serialize_u64 s (v % 2 ^ 32)

/-- `serialize_f64`: append `v.to_string()` of the double. -/
def serialize_f64 (s : Serializer) (f : FloatRepr) : Serializer :=
  s.push f.fmt

/-- `serialize_f32`: `self.serialize_f64(v as f64)`; the cast is
lossless, and `f` models the widened double. -/
def serialize_f32 (s : Serializer) (f : FloatRepr) : Serializer :=
  serialize_f64 s f

/-- `serialize_char`: single quotes around the character, escaping a
backslash or single quote with a preceding backslash. -/
def serialize_char (s : Serializer) (c : Char) : Serializer :=
  let s1 := s.push "'"
  let s2 := if c = '\\' ∨ c = '\'' then s1.pushChar '\\' else s1
  (s2.pushChar c).push "'"

/-- The character loop of `serialize_str`: push each character,
preceding a backslash or double quote with a backslash. -/
def pushEscaped (s : Serializer) : List Char → Serializer
  | [] => s
  | c :: cs =>
      pushEscaped (if c = '\\' ∨ c = '"' then (s.pushChar '\\').pushChar c else s.pushChar c) cs

/-- `serialize_str`: double quotes around the escaped characters. -/
def serialize_str (s : Serializer) (v : String) : Serializer :=
  (pushEscaped (s.push "\"") v.data).push "\""

/-- `serialize_none`: literal `None`. -/
def serialize_none (s : Serializer) : Serializer :=
  s.push "None"

/-- `serialize_unit`: literal `()`. -/
def serialize_unit (s : Serializer) : Serializer :=
  s.push "()"

/-- `serialize_unit_struct`: the name when `struct_names` is set, else
the plain unit form. -/
def serialize_unit_struct (s : Serializer) (name : String) : Serializer :=
  if s.struct_names then s.push name else serialize_unit s

/-- `serialize_unit_variant`: the variant name, unconditionally. -/
def serialize_unit_variant (s : Serializer) (variant : String) : Serializer :=
  s.push variant

/-- `serialize_seq`: `[` then `start_indent`. -/
def serialize_seq_start (s : Serializer) : Serializer :=
  (s.push "[").start_indent

/-- `SerializeSeq::end`: `end_indent` then `]`. -/
def seq_end (s : Serializer) : Serializer :=
  s.end_indent.push "]"

/-- `serialize_tuple`: `(`, then `start_indent` when tuple members are
separated. -/
def serialize_tuple_start (s : Serializer) : Serializer :=
  let s1 := s.push "("
  if s1.separate_tuple_members then s1.start_indent else s1

/-- `SerializeTuple::end`: when separating, `end_indent`; otherwise pop
`space().len()` characters; then `)`. -/
def tuple_end (s : Serializer) : Serializer :=
  let s1 := if s.separate_tuple_members then s.end_indent else s.popN s.space.length
  s1.push ")"

/-- `serialize_tuple_struct`: the name when `struct_names` is set, then
the tuple start. -/
def serialize_tuple_struct_start (s : Serializer) (name : String) : Serializer :=
  serialize_tuple_start (if s.struct_names then s.push name else s)

/-- `serialize_tuple_variant`: the variant name unconditionally, `(`,
then `start_indent` when tuple members are separated. -/
def serialize_tuple_variant_start (s : Serializer) (variant : String) : Serializer :=
  let s1 := (s.push variant).push "("
  if s1.separate_tuple_members then s1.start_indent else s1

/-- `serialize_map`: `\x7b` then `start_indent`. -/
def serialize_map_start (s : Serializer) : Serializer :=
  (s.push "\x7b").start_indent

/-- `SerializeMap::end`: `end_indent` then `\x7d`. -/
def map_end (s : Serializer) : Serializer :=
  s.end_indent.push "\x7d"

/-- `serialize_struct`: the name when `struct_names` is set, `(`, then
`start_indent`. -/
def serialize_struct_start (s : Serializer) (name : String) : Serializer :=
  ((if s.struct_names then s.push name else s).push "(").start_indent

/-- `serialize_struct_variant`: the variant name unconditionally, `(`,
then `start_indent`. -/
def serialize_struct_variant_start (s : Serializer) (variant : String) : Serializer :=
  (((s.push variant).push "(")).start_indent

/-- `SerializeStruct::end`: `end_indent` then `)`. -/
def struct_end (s : Serializer) : Serializer :=
  s.end_indent.push ")"

/-- The element loop of `serialize_bytes`: each byte runs the sequence
element protocol around `serialize_u8`. -/
def serializeByteElems (s : Serializer) : List Nat → Serializer
  | [] => s
  | b :: bs =>
      serializeByteElems (((serialize_u8 s.writeIndent b).push ",").push s.new_line) bs

mutual

/-- Serialization of one value: the protocol calls serde issues for the
value's shape, threaded through the engine.  The only `Except.error`
source is `vfail`, the caller-signalled custom error. -/
def serializeValue (s : Serializer) : Value → Except Error Serializer
  | .vbool b => .ok (serialize_bool s b)
  | .vi8 v => .ok (serialize_i8 s v)
  | .vi16 v => .ok (serialize_i16 s v)
  | .vi32 v => .ok (serialize_i32 s v)
  | .vi64 v => .ok (serialize_i64 s v)
  | .vu8 v => .ok (serialize_u8 s v)
  | .vu16 v => .ok (serialize_u16 s v)
  | .vu32 v => .ok (serialize_u32 s v)
  | .vu64 v => .ok (serialize_u64 s v)
  | .vf32 f => .ok (serialize_f32 s f)
  | .vf64 f => .ok (serialize_f64 s f)
  | .vchar c => .ok (serialize_char s c)
  | .vstr t => .ok (serialize_str s t)
  | .vbytes bs => .ok (seq_end (serializeByteElems (serialize_seq_start s) bs))
  | .vnone => .ok (serialize_none s)
  | .vsome v => do
      let s1 ← serializeValue (s.push "Some(") v
      .ok (s1.push ")")
  | .vunit => .ok (serialize_unit s)
  | .vunitStruct name => .ok (serialize_unit_struct s name)
  | .vunitVariant variant => .ok (serialize_unit_variant s variant)
  | .vnewtypeStruct name v => do
      let s1 ← serializeValue ((if s.struct_names then s.push name else s).push "(") v
      .ok (s1.push ")")
  | .vnewtypeVariant variant v => do
      let s1 ← serializeValue ((s.push variant).push "(") v
      .ok (s1.push ")")
  | .vseq elems => do
      let s1 ← serializeSeqElems (serialize_seq_start s) elems
      .ok (seq_end s1)
  | .vtuple elems => do
      let s1 ← serializeTupleElems (serialize_tuple_start s) elems
      .ok (tuple_end s1)
  | .vtupleStruct name elems => do
      let s1 ← serializeTupleElems (serialize_tuple_struct_start s name) elems
      .ok (tuple_end s1)
  | .vtupleVariant variant elems => do
      let s1 ← serializeTupleElems (serialize_tuple_variant_start s variant) elems
      .ok (tuple_end s1)
  | .vmap entries => do
      let s1 ← serializeMapEntries (serialize_map_start s) entries
      .ok (map_end s1)
  | .vstruct name fields => do
      let s1 ← serializeStructFields (serialize_struct_start s name) fields
      .ok (struct_end s1)
  | .vstructVariant variant fields => do
      let s1 ← serializeStructFields (serialize_struct_variant_start s variant) fields
      .ok (struct_end s1)
  | .vfail msg => .error (.Message msg)

/-- `SerializeSeq::serialize_element` iterated: indent, the element,
`,`, the newline string. -/
def serializeSeqElems (s : Serializer) : ValueList → Except Error Serializer
  | .nil => .ok s
  | .cons v vs => do
      let s1 ← serializeValue s.writeIndent v
      serializeSeqElems ((s1.push ",").push s1.new_line) vs

/-- `SerializeTuple::serialize_element` iterated: when separating,
indent, the element, `,`, newline; otherwise the element, `,`, the
space string. -/
def serializeTupleElems (s : Serializer) : ValueList → Except Error Serializer
  | .nil => .ok s
  | .cons v vs => do
      let s1 ← serializeValue (if s.separate_tuple_members then s.writeIndent else s) v
      let s2 := s1.push ","
      serializeTupleElems
        (if s2.separate_tuple_members then s2.push s2.new_line else s2.push s2.space) vs

/-- `SerializeMap::serialize_key` then `serialize_value` iterated:
indent, the key, `:`, the space string, the value, `,`, newline. -/
def serializeMapEntries (s : Serializer) : EntryList → Except Error Serializer
  | .nil => .ok s
  | .cons k v es => do
      let s1 ← serializeValue s.writeIndent k
      let s2 ← serializeValue ((s1.push ":").push s1.space) v
      serializeMapEntries ((s2.push ",").push s2.new_line) es

/-- `SerializeStruct::serialize_field` iterated: indent, the field
name, `:`, the space string, the value, `,`, newline. -/
def serializeStructFields (s : Serializer) : FieldList → Except Error Serializer
  | .nil => .ok s
  | .cons key v fs => do
      let s1 ← serializeValue (((s.writeIndent.push key).push ":").push s.space) v
      serializeStructFields ((s1.push ",").push s1.new_line) fs

end

/-- `to_string`: one fresh engine with `PrettyConfig::basic(false)`,
empty buffer and indent 0; the final buffer is the result. -/
def to_string (v : Value) : Except Error String := do
  let s ← serializeValue { output := [], config := PrettyConfig.basic false, indent := 0 } v
  .ok (String.mk s.output)

/-- `to_string_pretty`: one fresh engine with the caller's
configuration, empty buffer and indent 0. -/
def to_string_pretty (v : Value) (config : PrettyConfig) : Except Error String := do
  let s ← serializeValue { output := [], config := config, indent := 0 } v
  .ok (String.mk s.output)

/-- Inversion of a successful `Except` bind. -/
theorem except_bind_ok {α β : Type} {x : Except Error α} {f : α → Except Error β} {b : β}
    (h : (x >>= f) = .ok b) : ∃ a, x = .ok a ∧ f a = .ok b := by
  cases x with
  | error e => exact absurd h (by simp [Bind.bind, Except.bind])
  | ok a => exact ⟨a, rfl, by simpa [Bind.bind, Except.bind] using h⟩

/-- Dropping `n` trailing characters of `l1 ++ l2` stays inside `l2`
when `n ≤ l2.length`. -/
theorem take_sub_append {l1 l2 : List Char} {n : Nat} (h : n ≤ l2.length) :
    (l1 ++ l2).take ((l1 ++ l2).length - n) = l1 ++ l2.take (l2.length - n) := by
  rw [List.length_append, List.take_append_eq_append_take]
  have h1 : l1.length + l2.length - n - l1.length = l2.length - n := by omega
  have h2 : l1.length ≤ l1.length + l2.length - n := by omega
  rw [List.take_of_length_le (by omega), h1]

/-- The space string is at most one character long. -/
theorem space_length_le_one (s : Serializer) : s.space.length ≤ 1 := by
  unfold Serializer.space
  by_cases h : s.config.add_space
  · simp [h]
    decide
  · simp [h]

/-- `tuple_end` keeps every prefix of the buffer that ends before the
tuple's own opening parenthesis. -/
theorem tuple_end_extends {l w : List Char} {s : Serializer}
    (h : s.output = l ++ ('(' :: w)) : ∃ t, (tuple_end s).output = l ++ t := by
  unfold tuple_end
  by_cases hsep : s.separate_tuple_members
  · refine ⟨'(' :: w ++ (List.replicate (s.indent - 1) s.config.indentor.data).flatten ++ ")".data, ?_⟩
    simp [hsep, Serializer.end_indent, Serializer.push, h]
  · have hsp : s.space.length ≤ ('(' :: w).length := by
      have := space_length_le_one s
      simp only [List.length_cons]
      omega
    refine ⟨('(' :: w).take (('(' :: w).length - s.space.length) ++ ")".data, ?_⟩
    simp only [hsep, if_false, Serializer.popN, Serializer.push, h, Bool.false_eq_true]
    rw [take_sub_append hsp, List.append_assoc]

/-- `pushEscaped` only appends to the buffer and leaves the
configuration and the indent depth unchanged. -/
theorem pushEscaped_run (cs : List Char) : ∀ s : Serializer,
    (pushEscaped s cs).config = s.config ∧ (pushEscaped s cs).indent = s.indent ∧
    ∃ t, (pushEscaped s cs).output = s.output ++ t := by
  induction cs with
  | nil => exact fun s => ⟨rfl, rfl, [], by simp [pushEscaped]⟩
  | cons c cs ih =>
      intro s
      by_cases h : c = '\\' ∨ c = '"' <;>
        · obtain ⟨h1, h2, t, h3⟩ := ih _
        

          exact ⟨by simp [pushEscaped, h, Serializer.pushChar] at h1 ⊢; exact h1,
                 by simp [pushEscaped, h, Serializer.pushChar] at h2 ⊢; exact h2,
                 by simp [pushEscaped, h, Serializer.pushChar] at h3 ⊢; exact ⟨_, h3⟩⟩

/-- Buffer extension is transitive. -/
theorem extends_trans {a b c : List Char} (h1 : ∃ t, b = a ++ t) (h2 : ∃ t, c = b ++ t) :
    ∃ t, c = a ++ t := by
  obtain ⟨t1, rfl⟩ := h1
  obtain ⟨t2, rfl⟩ := h2
  exact ⟨t1 ++ t2, by rw [List.append_assoc]⟩

/-- `serializeByteElems` only appends to the buffer and leaves the
configuration and the indent depth unchanged. -/
theorem serializeByteElems_run (bs : List Nat) : ∀ s : Serializer,
    (serializeByteElems s bs).config = s.config ∧
    (serializeByteElems s bs).indent = s.indent ∧
    ∃ t, (serializeByteElems s bs).output = s.output ++ t := by
  induction bs with
  | nil => exact fun s => ⟨rfl, rfl, [], by simp [serializeByteElems]⟩
  | cons b bs ih =>
      intro s
      obtain ⟨h1, h2, hext⟩ := ih (((serialize_u8 s.writeIndent b).push ",").push s.new_line)
      refine ⟨?_, ?_, ?_⟩
      · simpa [serialize_u8, serialize_u64, Serializer.push,
          Serializer.writeIndent, serializeByteElems] using h1
      · simpa [serialize_u8, serialize_u64, Serializer.push,
          Serializer.writeIndent, serializeByteElems] using h2
      · rw [serializeByteElems]
        refine extends_trans ?_ hext
        refine ⟨(List.replicate s.indent s.config.indentor.data).flatten
          ++ (toString (b % 2 ^ 8)).data ++ ",".data ++ s.new_line.data, ?_⟩
        simp [serialize_u8, serialize_u64, Serializer.push, Serializer.writeIndent,
          Serializer.new_line]

/-- A push only appends. -/
theorem push_extends (s : Serializer) (t : String) :
    ∃ w, (s.push t).output = s.output ++ w := ⟨t.data, rfl⟩

/-- The buffer extends itself. -/
theorem extends_rfl (a : List Char) : ∃ t, a = a ++ t := ⟨[], by simp⟩

/-- `serialize_bool` preserves configuration and indent and only
appends. -/
theorem serialize_bool_run (s : Serializer) (b : Bool) :
    (serialize_bool s b).config = s.config ∧ (serialize_bool s b).indent = s.indent ∧
    ∃ t, (serialize_bool s b).output = s.output ++ t :=
  ⟨rfl, rfl, push_extends _ _⟩

/-- `serialize_i64` preserves configuration and indent and only
appends. -/
theorem serialize_i64_run (s : Serializer) (v : Int) :
    (serialize_i64 s v).config = s.config ∧ (serialize_i64 s v).indent = s.indent ∧
    ∃ t, (serialize_i64 s v).output = s.output ++ t :=
  ⟨rfl, rfl, push_extends _ _⟩

/-- `serialize_u64` preserves configuration and indent and only
appends. -/
theorem serialize_u64_run (s : Serializer) (v : Nat) :
    (serialize_u64 s v).config = s.config ∧ (serialize_u64 s v).indent = s.indent ∧
    ∃ t, (serialize_u64 s v).output = s.output ++ t :=
  ⟨rfl, rfl, push_extends _ _⟩

/-- `serialize_f64` preserves configuration and indent and only
appends. -/
theorem serialize_f64_run (s : Serializer) (f : FloatRepr) :
    (serialize_f64 s f).config = s.config ∧ (serialize_f64 s f).indent = s.indent ∧
    ∃ t, (serialize_f64 s f).output = s.output ++ t :=
  ⟨rfl, rfl, push_extends _ _⟩

/-- `serialize_char` preserves configuration and indent and only
appends. -/
theorem serialize_char_run (s : Serializer) (c : Char) :
    (serialize_char s c).config = s.config ∧ (serialize_char s c).indent = s.indent ∧
    ∃ t, (serialize_char s c).output = s.output ++ t := by
  by_cases hc : c = '\\' ∨ c = '\''
  · refine ⟨by simp [serialize_char, hc, Serializer.push, Serializer.pushChar],
      by simp [serialize_char, hc, Serializer.push, Serializer.pushChar], ?_⟩
    simp only [serialize_char, hc, if_true, Serializer.push, Serializer.pushChar,
      List.append_assoc]
    exact ⟨_, rfl⟩
  · refine ⟨by simp [serialize_char, hc, Serializer.push, Serializer.pushChar],
      by simp [serialize_char, hc, Serializer.push, Serializer.pushChar], ?_⟩
    simp only [serialize_char, hc, if_false, Serializer.push, Serializer.pushChar,
      List.append_assoc]
    exact ⟨_, rfl⟩

/-- `serialize_str` preserves configuration and indent and only
appends. -/
theorem serialize_str_run (s : Serializer) (v : String) :
    (serialize_str s v).config = s.config ∧ (serialize_str s v).indent = s.indent ∧
    ∃ t, (serialize_str s v).output = s.output ++ t := by
  obtain ⟨h1, h2, h3⟩ := pushEscaped_run v.data (s.push "\"")
  refine ⟨h1, h2, ?_⟩
  refine extends_trans (b := (pushEscaped (s.push "\"") v.data).output) ?_ ?_
  · exact extends_trans (b := (s.push "\"").output) (push_extends _ _) h3
  · exact ⟨_, rfl⟩

/-- `serialize_seq_start` preserves the configuration, increments the
indent depth, and only appends. -/
theorem seq_start_run (s : Serializer) :
    (serialize_seq_start s).config = s.config ∧
    (serialize_seq_start s).indent = s.indent + 1 ∧
    ∃ t, (serialize_seq_start s).output = s.output ++ t := by
  refine ⟨rfl, rfl, ?_⟩
  simp only [serialize_seq_start, Serializer.push, Serializer.start_indent, List.append_assoc]
  exact ⟨_, rfl⟩

/-- `seq_end` preserves the configuration, decrements the indent
depth, and only appends. -/
theorem seq_end_run (s : Serializer) :
    (seq_end s).config = s.config ∧
    (seq_end s).indent = s.indent - 1 ∧
    ∃ t, (seq_end s).output = s.output ++ t := by
  refine ⟨rfl, rfl, ?_⟩
  simp only [seq_end, Serializer.push, Serializer.end_indent, List.append_assoc]
  exact ⟨_, rfl⟩

/-- `serialize_map_start` preserves the configuration, increments the
indent depth, and only appends. -/
theorem map_start_run (s : Serializer) :
    (serialize_map_start s).config = s.config ∧
    (serialize_map_start s).indent = s.indent + 1 ∧
    ∃ t, (serialize_map_start s).output = s.output ++ t := by
  refine ⟨rfl, rfl, ?_⟩
  simp only [serialize_map_start, Serializer.push, Serializer.start_indent, List.append_assoc]
  exact ⟨_, rfl⟩

/-- `map_end` preserves the configuration, decrements the indent
depth, and only appends. -/
theorem map_end_run (s : Serializer) :
    (map_end s).config = s.config ∧
    (map_end s).indent = s.indent - 1 ∧
    ∃ t, (map_end s).output = s.output ++ t := by
  refine ⟨rfl, rfl, ?_⟩
  simp only [map_end, Serializer.push, Serializer.end_indent, List.append_assoc]
  exact ⟨_, rfl⟩

/-- `serialize_struct_start` preserves the configuration, increments
the indent depth, and only appends. -/
theorem struct_start_run (s : Serializer) (name : String) :
    (serialize_struct_start s name).config = s.config ∧
    (serialize_struct_start s name).indent = s.indent + 1 ∧
    ∃ t, (serialize_struct_start s name).output = s.output ++ t := by
  by_cases h : s.struct_names <;>
    · refine ⟨by simp [serialize_struct_start, h, Serializer.push, Serializer.start_indent],
        by simp [serialize_struct_start, h, Serializer.push, Serializer.start_indent], ?_⟩
      simp only [serialize_struct_start, h, if_true, if_false, Serializer.push,
        Serializer.start_indent, List.append_assoc]
      exact ⟨_, rfl⟩

/-- `serialize_struct_variant_start` preserves the configuration,
increments the indent depth, and appends text beginning with the
variant name. -/
theorem struct_variant_start_run (s : Serializer) (variant : String) :
    (serialize_struct_variant_start s variant).config = s.config ∧
    (serialize_struct_variant_start s variant).indent = s.indent + 1 ∧
    ∃ t, (serialize_struct_variant_start s variant).output = (s.output ++ variant.data) ++ t := by
  refine ⟨rfl, rfl, ?_⟩
  simp only [serialize_struct_variant_start, Serializer.push, Serializer.start_indent,
    List.append_assoc]
  exact ⟨_, rfl⟩

/-- `struct_end` preserves the configuration, decrements the indent
depth, and only appends. -/
theorem struct_end_run (s : Serializer) :
    (struct_end s).config = s.config ∧
    (struct_end s).indent = s.indent - 1 ∧
    ∃ t, (struct_end s).output = s.output ++ t := by
  refine ⟨rfl, rfl, ?_⟩
  simp only [struct_end, Serializer.push, Serializer.end_indent, List.append_assoc]
  exact ⟨_, rfl⟩

/-- `serialize_tuple_start` preserves the configuration, increments
the indent depth exactly when tuple members are separated, and appends
an opening parenthesis followed by the rest. -/
theorem tuple_start_run (s : Serializer) :
    (serialize_tuple_start s).config = s.config ∧
    (serialize_tuple_start s).indent
      = (if s.config.separate_tuple_members then s.indent + 1 else s.indent) ∧
    ∃ w, (serialize_tuple_start s).output = s.output ++ ('(' :: w) := by
  by_cases h : s.config.separate_tuple_members <;>
    · refine ⟨by simp [serialize_tuple_start, Serializer.separate_tuple_members, h,
          Serializer.push, Serializer.start_indent],
        by simp [serialize_tuple_start, Serializer.separate_tuple_members, h,
          Serializer.push, Serializer.start_indent], ?_⟩
      simp only [serialize_tuple_start, Serializer.separate_tuple_members, h, if_true, if_false,
        Serializer.push, Serializer.start_indent, List.append_assoc]
      exact ⟨_, rfl⟩

/-- `serialize_tuple_variant_start` preserves the configuration,
increments the indent depth exactly when tuple members are separated,
and appends the variant name, an opening parenthesis, and the rest. -/
theorem tuple_variant_start_run (s : Serializer) (variant : String) :
    (serialize_tuple_variant_start s variant).config = s.config ∧
    (serialize_tuple_variant_start s variant).indent
      = (if s.config.separate_tuple_members then s.indent + 1 else s.indent) ∧
    ∃ w, (serialize_tuple_variant_start s variant).output
      = (s.output ++ variant.data) ++ ('(' :: w) := by
  by_cases h : s.config.separate_tuple_members <;>
    · refine ⟨by simp [serialize_tuple_variant_start, Serializer.separate_tuple_members, h,
          Serializer.push, Serializer.start_indent],
        by simp [serialize_tuple_variant_start, Serializer.separate_tuple_members, h,
          Serializer.push, Serializer.start_indent], ?_⟩
      simp only [serialize_tuple_variant_start, Serializer.separate_tuple_members, h,
        if_true, if_false, Serializer.push, Serializer.start_indent, List.append_assoc]
      exact ⟨_, rfl⟩

/-- `serialize_tuple_struct_start` preserves the configuration,
increments the indent depth exactly when tuple members are separated,
and appends (after the optional name) an opening parenthesis and the
rest. -/
theorem tuple_struct_start_run (s : Serializer) (name : String) :
    (serialize_tuple_struct_start s name).config = s.config ∧
    (serialize_tuple_struct_start s name).indent
      = (if s.config.separate_tuple_members then s.indent + 1 else s.indent) ∧
    ∃ l w, (serialize_tuple_struct_start s name).output = l ++ ('(' :: w) ∧
      ∃ t, l = s.output ++ t := by
  unfold serialize_tuple_struct_start
  by_cases h : s.struct_names
  · obtain ⟨h1, h2, w, h3⟩ := tuple_start_run (s.push name)
    refine ⟨?_, ?_, (s.push name).output, w, ?_, push_extends s name⟩
    · rw [if_pos h]
      exact h1
    · rw [if_pos h]
      exact h2
    · rw [if_pos h]
      exact h3
  · obtain ⟨h1, h2, w, h3⟩ := tuple_start_run s
    exact ⟨by simp [h, h1], by simp [h, h2], s.output, w, by simp [h, h3], extends_rfl _⟩

/-- `tuple_end` preserves the configuration, decrements the indent
depth exactly when tuple members are separated, and keeps every
prefix of the buffer that ends before the tuple's own opening
parenthesis. -/
theorem tuple_end_run {l w : List Char} (s : Serializer) (h : s.output = l ++ ('(' :: w)) :
    (tuple_end s).config = s.config ∧
    (tuple_end s).indent
      = (if s.config.separate_tuple_members then s.indent - 1 else s.indent) ∧
    ∃ t, (tuple_end s).output = l ++ t := by
  refine ⟨?_, ?_, tuple_end_extends h⟩ <;>
    · unfold tuple_end Serializer.separate_tuple_members
      by_cases hs : s.config.separate_tuple_members <;>
        simp [hs, Serializer.push, Serializer.end_indent, Serializer.popN]

/-- `writeIndent` only appends. -/
theorem writeIndent_extends (s : Serializer) : ∃ w, s.writeIndent.output = s.output ++ w :=
  ⟨_, rfl⟩

/-- The conditional indent write of a tuple element preserves
configuration and indent and only appends. -/
theorem if_writeIndent_run (c : Bool) (s : Serializer) :
    (if c then s.writeIndent else s).config = s.config ∧
    (if c then s.writeIndent else s).indent = s.indent ∧
    ∃ t, (if c then s.writeIndent else s).output = s.output ++ t := by
  cases c
  · exact ⟨rfl, rfl, extends_rfl _⟩
  · exact ⟨rfl, rfl, writeIndent_extends s⟩

/-- The separator write after a tuple element (newline when separating,
space string otherwise) preserves configuration and indent and only
appends. -/
theorem tuple_sep_run (s : Serializer) :
    (if s.separate_tuple_members then s.push s.new_line else s.push s.space).config = s.config ∧
    (if s.separate_tuple_members then s.push s.new_line else s.push s.space).indent = s.indent ∧
    ∃ t, (if s.separate_tuple_members then s.push s.new_line else s.push s.space).output
      = s.output ++ t := by
  by_cases h : s.separate_tuple_members
  · rw [if_pos h]
    exact ⟨rfl, rfl, push_extends _ _⟩
  · rw [if_neg h]
    exact ⟨rfl, rfl, push_extends _ _⟩

mutual

/-- A successful serialization of one value preserves the
configuration, restores the indent depth, and only extends the
buffer. -/
theorem serializeValue_run (v : Value) : ∀ s s' : Serializer, serializeValue s v = .ok s' →
    s'.config = s.config ∧ s'.indent = s.indent ∧ ∃ t, s'.output = s.output ++ t := by
  cases v with
  | vbool b =>
      intro s s' h
      simp only [serializeValue] at h
      injection h with h
      subst h
      exact serialize_bool_run s b
  | vi8 v =>
      intro s s' h
      simp only [serializeValue] at h
      injection h with h
      subst h
      exact serialize_i64_run s (sext8 v)
  | vi16 v =>
      intro s s' h
      simp only [serializeValue] at h
      injection h with h
      subst h
      exact serialize_i64_run s (sext16 v)
  | vi32 v =>
      intro s s' h
      simp only [serializeValue] at h
      injection h with h
      subst h
      exact serialize_i64_run s (sext32 v)
  | vi64 v =>
      intro s s' h
      simp only [serializeValue] at h
      injection h with h
      subst h
      exact serialize_i64_run s v
  | vu8 v =>
      intro s s' h
      simp only [serializeValue] at h
      injection h with h
      subst h
      exact serialize_u64_run s (v % 2 ^ 8)
  | vu16 v =>
      intro s s' h
      simp only [serializeValue] at h
      injection h with h
      subst h
      exact serialize_u64_run s (v % 2 ^ 16)
  | vu32 v =>
      intro s s' h
      simp only [serializeValue] at h
      injection h with h
      subst h
      exact serialize_u64_run s (v % 2 ^ 32)
  | vu64 v =>
      intro s s' h
      simp only [serializeValue] at h
      injection h with h
      subst h
      exact serialize_u64_run s v
  | vf32 f =>
      intro s s' h
      simp only [serializeValue] at h
      injection h with h
      subst h
      exact serialize_f64_run s f
  | vf64 f =>
      intro s s' h
      simp only [serializeValue] at h
      injection h with h
      subst h
      exact serialize_f64_run s f
  | vchar c =>
      intro s s' h
      simp only [serializeValue] at h
      injection h with h
      subst h
      exact serialize_char_run s c
  | vstr t =>
      intro s s' h
      simp only [serializeValue] at h
      injection h with h
      subst h
      exact serialize_str_run s t
  | vbytes bs =>
      intro s s' h
      simp only [serializeValue] at h
      injection h with h
      subst h
      obtain ⟨hc1, hi1, hext1⟩ := seq_start_run s
      obtain ⟨hc2, hi2, hext2⟩ := serializeByteElems_run bs (serialize_seq_start s)
      obtain ⟨hc3, hi3, hext3⟩ := seq_end_run (serializeByteElems (serialize_seq_start s) bs)
      refine ⟨by rw [hc3, hc2, hc1], by rw [hi3, hi2, hi1]; omega, ?_⟩
      exact extends_trans (extends_trans hext1 hext2) hext3
  | vnone =>
      intro s s' h
      simp only [serializeValue] at h
      injection h with h
      subst h
      exact ⟨rfl, rfl, push_extends _ _⟩
  | vsome v =>
      intro s s' h
      simp only [serializeValue] at h
      obtain ⟨s1, h1, h2⟩ := except_bind_ok h
      injection h2 with h2
      subst h2
      obtain ⟨hc, hi, hext⟩ := serializeValue_run v (s.push "Some(") s1 h1
      exact ⟨hc, hi,
        extends_trans (extends_trans (push_extends s "Some(") hext) (push_extends s1 ")")⟩
  | vunit =>
      intro s s' h
      simp only [serializeValue] at h
      injection h with h
      subst h
      exact ⟨rfl, rfl, push_extends _ _⟩
  | vunitStruct name =>
      intro s s' h
      simp only [serializeValue] at h
      injection h with h
      subst h
      unfold serialize_unit_struct
      by_cases hn : s.struct_names
      · rw [if_pos hn]
        exact ⟨rfl, rfl, push_extends _ _⟩
      · rw [if_neg hn]
        exact ⟨rfl, rfl, push_extends _ _⟩
  | vunitVariant variant =>
      intro s s' h
      simp only [serializeValue] at h
      injection h with h
      subst h
      exact ⟨rfl, rfl, push_extends _ _⟩
  | vnewtypeStruct name v =>
      intro s s' h
      simp only [serializeValue] at h
      obtain ⟨s1, h1, h2⟩ := except_bind_ok h
      injection h2 with h2
      subst h2
      by_cases hn : s.struct_names
      · rw [if_pos hn] at h1
        obtain ⟨hc, hi, hext⟩ := serializeValue_run v ((s.push name).push "(") s1 h1
        refine ⟨hc, hi, ?_⟩
        refine extends_trans (extends_trans ?_ hext) (push_extends s1 ")")
        exact ⟨name.data ++ "(".data, by simp [Serializer.push]⟩
      · rw [if_neg hn] at h1
        obtain ⟨hc, hi, hext⟩ := serializeValue_run v (s.push "(") s1 h1
        exact ⟨hc, hi, extends_trans (extends_trans (push_extends s "(") hext)
          (push_extends s1 ")")⟩
  | vnewtypeVariant variant v =>
      intro s s' h
      simp only [serializeValue] at h
      obtain ⟨s1, h1, h2⟩ := except_bind_ok h
      injection h2 with h2
      subst h2
      obtain ⟨hc, hi, hext⟩ := serializeValue_run v ((s.push variant).push "(") s1 h1
      refine ⟨hc, hi, ?_⟩
      refine extends_trans (extends_trans ?_ hext) (push_extends s1 ")")
      exact ⟨variant.data ++ "(".data, by simp [Serializer.push]⟩
  | vseq elems =>
      intro s s' h
      simp only [serializeValue] at h
      obtain ⟨s1, h1, h2⟩ := except_bind_ok h
      injection h2 with h2
      subst h2
      obtain ⟨hc0, hi0, hext0⟩ := seq_start_run s
      obtain ⟨hc, hi, hext⟩ := serializeSeqElems_run elems (serialize_seq_start s) s1 h1
      obtain ⟨hc3, hi3, hext3⟩ := seq_end_run s1
      refine ⟨by rw [hc3, hc, hc0], by rw [hi3, hi, hi0]; omega, ?_⟩
      exact extends_trans (extends_trans hext0 hext) hext3
  | vtuple elems =>
      intro s s' h
      simp only [serializeValue] at h
      obtain ⟨s1, h1, h2⟩ := except_bind_ok h
      injection h2 with h2
      subst h2
      obtain ⟨hc0, hi0, w, hw⟩ := tuple_start_run s
      obtain ⟨hc, hi, t, ht⟩ := serializeTupleElems_run elems (serialize_tuple_start s) s1 h1
      have hshape : s1.output = s.output ++ ('(' :: (w ++ t)) := by
        rw [ht, hw, List.append_assoc, List.cons_append]
      obtain ⟨hc3, hi3, ht3⟩ := tuple_end_run s1 hshape
      refine ⟨by rw [hc3, hc, hc0], ?_, ht3⟩
      rw [hi3, hc, hc0, hi, hi0]
      by_cases hsep : s.config.separate_tuple_members <;> simp [hsep]
  | vtupleStruct name elems =>
      intro s s' h
      simp only [serializeValue] at h
      obtain ⟨s1, h1, h2⟩ := except_bind_ok h
      injection h2 with h2
      subst h2
      obtain ⟨hc0, hi0, l, w, hw, t0, hl⟩ := tuple_struct_start_run s name
      obtain ⟨hc, hi, t, ht⟩ :=
        serializeTupleElems_run elems (serialize_tuple_struct_start s name) s1 h1
      have hshape : s1.output = l ++ ('(' :: (w ++ t)) := by
        rw [ht, hw, List.append_assoc, List.cons_append]
      obtain ⟨hc3, hi3, ht3⟩ := tuple_end_run s1 hshape
      refine ⟨by rw [hc3, hc, hc0], ?_, extends_trans ⟨t0, hl⟩ ht3⟩
      rw [hi3, hc, hc0, hi, hi0]
      by_cases hsep : s.config.separate_tuple_members <;> simp [hsep]
  | vtupleVariant variant elems =>
      intro s s' h
      simp only [serializeValue] at h
      obtain ⟨s1, h1, h2⟩ := except_bind_ok h
      injection h2 with h2
      subst h2
      obtain ⟨hc0, hi0, w, hw⟩ := tuple_variant_start_run s variant
      obtain ⟨hc, hi, t, ht⟩ :=
        serializeTupleElems_run elems (serialize_tuple_variant_start s variant) s1 h1
      have hshape : s1.output = (s.output ++ variant.data) ++ ('(' :: (w ++ t)) := by
        rw [ht, hw, List.append_assoc, List.cons_append]
      obtain ⟨hc3, hi3, ht3⟩ := tuple_end_run s1 hshape
      refine ⟨by rw [hc3, hc, hc0], ?_, extends_trans ⟨variant.data, rfl⟩ ht3⟩
      rw [hi3, hc, hc0, hi, hi0]
      by_cases hsep : s.config.separate_tuple_members <;> simp [hsep]
  | vmap entries =>
      intro s s' h
      simp only [serializeValue] at h
      obtain ⟨s1, h1, h2⟩ := except_bind_ok h
      injection h2 with h2
      subst h2
      obtain ⟨hc0, hi0, hext0⟩ := map_start_run s
      obtain ⟨hc, hi, hext⟩ := serializeMapEntries_run entries (serialize_map_start s) s1 h1
      obtain ⟨hc3, hi3, hext3⟩ := map_end_run s1
      refine ⟨by rw [hc3, hc, hc0], by rw [hi3, hi, hi0]; omega, ?_⟩
      exact extends_trans (extends_trans hext0 hext) hext3
  | vstruct name fields =>
      intro s s' h
      simp only [serializeValue] at h
      obtain ⟨s1, h1, h2⟩ := except_bind_ok h
      injection h2 with h2
      subst h2
      obtain ⟨hc0, hi0, hext0⟩ := struct_start_run s name
      obtain ⟨hc, hi, hext⟩ :=
        serializeStructFields_run fields (serialize_struct_start s name) s1 h1
      obtain ⟨hc3, hi3, hext3⟩ := struct_end_run s1
      refine ⟨by rw [hc3, hc, hc0], by rw [hi3, hi, hi0]; omega, ?_⟩
      exact extends_trans (extends_trans hext0 hext) hext3
  | vstructVariant variant fields =>
      intro s s' h
      simp only [serializeValue] at h
      obtain ⟨s1, h1, h2⟩ := except_bind_ok h
      injection h2 with h2
      subst h2
      obtain ⟨hc0, hi0, hext0⟩ := struct_variant_start_run s variant
      obtain ⟨hc, hi, hext⟩ :=
        serializeStructFields_run fields (serialize_struct_variant_start s variant) s1 h1
      obtain ⟨hc3, hi3, hext3⟩ := struct_end_run s1
      refine ⟨by rw [hc3, hc, hc0], by rw [hi3, hi, hi0]; omega, ?_⟩
      refine extends_trans (extends_trans (extends_trans ⟨variant.data, rfl⟩ hext0) hext) hext3
  | vfail msg =>
      intro s s' h
      simp only [serializeValue] at h
      exact Except.noConfusion h

/-- A successful run of the sequence-element loop preserves the
configuration, restores the indent depth, and only extends the
buffer. -/
theorem serializeSeqElems_run (vs : ValueList) : ∀ s s' : Serializer,
    serializeSeqElems s vs = .ok s' →
    s'.config = s.config ∧ s'.indent = s.indent ∧ ∃ t, s'.output = s.output ++ t := by
  cases vs with
  | nil =>
      intro s s' h
      simp only [serializeSeqElems] at h
      injection h with h
      subst h
      exact ⟨rfl, rfl, extends_rfl _⟩
  | cons v vs =>
      intro s s' h
      simp only [serializeSeqElems] at h
      obtain ⟨s1, h1, h2⟩ := except_bind_ok h
      obtain ⟨hc1, hi1, hext1⟩ := serializeValue_run v s.writeIndent s1 h1
      obtain ⟨hc2, hi2, hext2⟩ := serializeSeqElems_run vs ((s1.push ",").push s1.new_line) s' h2
      refine ⟨?_, ?_, ?_⟩
      · rw [hc2]
        exact hc1
      · rw [hi2]
        exact hi1
      · refine extends_trans ?_ hext2
        exact extends_trans (extends_trans (extends_trans (writeIndent_extends s) hext1)
          (push_extends s1 ",")) (push_extends (s1.push ",") s1.new_line)

/-- A successful run of the tuple-element loop preserves the
configuration, restores the indent depth, and only extends the
buffer. -/
theorem serializeTupleElems_run (vs : ValueList) : ∀ s s' : Serializer,
    serializeTupleElems s vs = .ok s' →
    s'.config = s.config ∧ s'.indent = s.indent ∧ ∃ t, s'.output = s.output ++ t := by
  cases vs with
  | nil =>
      intro s s' h
      simp only [serializeTupleElems] at h
      injection h with h
      subst h
      exact ⟨rfl, rfl, extends_rfl _⟩
  | cons v vs =>
      intro s s' h
      simp only [serializeTupleElems] at h
      obtain ⟨s1, h1, h2⟩ := except_bind_ok h
      obtain ⟨hc0, hi0, hext0⟩ := if_writeIndent_run s.separate_tuple_members s
      obtain ⟨hc1, hi1, hext1⟩ :=
        serializeValue_run v (if s.separate_tuple_members then s.writeIndent else s) s1 h1
      obtain ⟨hcm, him, hextm⟩ := tuple_sep_run (s1.push ",")
      obtain ⟨hc2, hi2, hext2⟩ := serializeTupleElems_run vs
        (if (s1.push ",").separate_tuple_members then (s1.push ",").push (s1.push ",").new_line
          else (s1.push ",").push (s1.push ",").space) s' h2
      refine ⟨?_, ?_, ?_⟩
      · rw [hc2, hcm]
        exact hc1.trans hc0
      · rw [hi2, him]
        exact hi1.trans hi0
      · refine extends_trans ?_ hext2
        refine extends_trans ?_ hextm
        exact extends_trans (extends_trans hext0 hext1) (push_extends s1 ",")

/-- A successful run of the map-entry loop preserves the
configuration, restores the indent depth, and only extends the
buffer. -/
theorem serializeMapEntries_run (es : EntryList) : ∀ s s' : Serializer,
    serializeMapEntries s es = .ok s' →
    s'.config = s.config ∧ s'.indent = s.indent ∧ ∃ t, s'.output = s.output ++ t := by
  cases es with
  | nil =>
      intro s s' h
      simp only [serializeMapEntries] at h
      injection h with h
      subst h
      exact ⟨rfl, rfl, extends_rfl _⟩
  | cons k v es =>
      intro s s' h
      simp only [serializeMapEntries] at h
      obtain ⟨s1, h1, h2⟩ := except_bind_ok h
      obtain ⟨s2, h2a, h2b⟩ := except_bind_ok h2
      obtain ⟨hc1, hi1, hext1⟩ := serializeValue_run k s.writeIndent s1 h1
      obtain ⟨hc2, hi2, hext2⟩ := serializeValue_run v ((s1.push ":").push s1.space) s2 h2a
      obtain ⟨hc3, hi3, hext3⟩ :=
        serializeMapEntries_run es ((s2.push ",").push s2.new_line) s' h2b
      refine ⟨?_, ?_, ?_⟩
      · rw [hc3]
        exact (hc2.trans hc1 : s2.config = s.config)
      · rw [hi3]
        exact (hi2.trans hi1 : s2.indent = s.indent)
      · refine extends_trans ?_ hext3
        refine extends_trans (extends_trans ?_ hext2)
          (extends_trans (push_extends s2 ",") (push_extends (s2.push ",") s2.new_line))
        refine extends_trans (extends_trans (writeIndent_extends s) hext1) ?_
        exact extends_trans (push_extends s1 ":") (push_extends (s1.push ":") s1.space)

/-- A successful run of the struct-field loop preserves the
configuration, restores the indent depth, and only extends the
buffer. -/
theorem serializeStructFields_run (fs : FieldList) : ∀ s s' : Serializer,
    serializeStructFields s fs = .ok s' →
    s'.config = s.config ∧ s'.indent = s.indent ∧ ∃ t, s'.output = s.output ++ t := by
  cases fs with
  | nil =>
      intro s s' h
      simp only [serializeStructFields] at h
      injection h with h
      subst h
      exact ⟨rfl, rfl, extends_rfl _⟩
  | cons key v fs =>
      intro s s' h
      simp only [serializeStructFields] at h
      obtain ⟨s1, h1, h2⟩ := except_bind_ok h
      obtain ⟨hc1, hi1, hext1⟩ :=
        serializeValue_run v (((s.writeIndent.push key).push ":").push s.space) s1 h1
      obtain ⟨hc2, hi2, hext2⟩ :=
        serializeStructFields_run fs ((s1.push ",").push s1.new_line) s' h2
      refine ⟨?_, ?_, ?_⟩
      · rw [hc2]
        exact hc1
      · rw [hi2]
        exact hi1
      · refine extends_trans ?_ hext2
        refine extends_trans (extends_trans ?_ hext1)
          (extends_trans (push_extends s1 ",") (push_extends (s1.push ",") s1.new_line))
        exact extends_trans (extends_trans (writeIndent_extends s) (push_extends _ key))
          (extends_trans (push_extends _ ":") (push_extends _ s.space))

end

/-- The string escaping the specification describes: exactly a
backslash or the double-quote delimiter is preceded by a backslash;
every other character, control characters included, passes through
verbatim. -/
def specEscapeStr (cs : List Char) : List Char :=
  cs.flatMap fun c => if c = '\\' ∨ c = '"' then ['\\', c] else [c]

/-- The character escaping the specification describes: exactly a
backslash or the single-quote delimiter is preceded by a backslash. -/
def specEscapeChar (c : Char) : List Char :=
  if c = '\\' ∨ c = '\'' then ['\\', c] else [c]

/-- The character loop of `serialize_str` computes exactly the
escaping the specification describes. -/
theorem pushEscaped_eq_spec (cs : List Char) : ∀ s : Serializer,
    (pushEscaped s cs).output = s.output ++ specEscapeStr cs := by
  induction cs with
  | nil =>
      intro s
      simp [pushEscaped, specEscapeStr]
  | cons c cs ih =>
      intro s
      by_cases h : c = '\\' ∨ c = '"'
      · simp [pushEscaped, h, ih, specEscapeStr, Serializer.pushChar]
      · simp [pushEscaped, h, ih, specEscapeStr, Serializer.pushChar]

mutual

/-- Does the value tree contain a caller-signalled custom error
(`vfail`, the model of a `Serialize` implementation returning
`Err(Error::custom(..))`)? -/
def Value.hasFail : Value → Bool
  | .vsome v => v.hasFail
  | .vnewtypeStruct _ v => v.hasFail
  | .vnewtypeVariant _ v => v.hasFail
  | .vseq es => es.hasFail
  | .vtuple es => es.hasFail
  | .vtupleStruct _ es => es.hasFail
  | .vtupleVariant _ es => es.hasFail
  | .vmap es => es.hasFail
  | .vstruct _ fs => fs.hasFail
  | .vstructVariant _ fs => fs.hasFail
  | .vfail _ => true
  | _ => false

/-- `hasFail` over sequence or tuple elements. -/
def ValueList.hasFail : ValueList → Bool
  | .nil => false
  | .cons v vs => v.hasFail || vs.hasFail

/-- `hasFail` over map entries. -/
def EntryList.hasFail : EntryList → Bool
  | .nil => false
  | .cons k v es => k.hasFail || v.hasFail || es.hasFail

/-- `hasFail` over struct fields. -/
def FieldList.hasFail : FieldList → Bool
  | .nil => false
  | .cons _ v fs => v.hasFail || fs.hasFail

end

mutual

/-- Serialization of a value succeeds from any state exactly when the
value contains no caller-signalled error. -/
theorem serializeValue_ok_iff (v : Value) : ∀ s : Serializer,
    (∃ s', serializeValue s v = .ok s') ↔ v.hasFail = false := by
  cases v with
  | vbool b => intro s; simp [serializeValue, Value.hasFail]
  | vi8 v => intro s; simp [serializeValue, Value.hasFail]
  | vi16 v => intro s; simp [serializeValue, Value.hasFail]
  | vi32 v => intro s; simp [serializeValue, Value.hasFail]
  | vi64 v => intro s; simp [serializeValue, Value.hasFail]
  | vu8 v => intro s; simp [serializeValue, Value.hasFail]
  | vu16 v => intro s; simp [serializeValue, Value.hasFail]
  | vu32 v => intro s; simp [serializeValue, Value.hasFail]
  | vu64 v => intro s; simp [serializeValue, Value.hasFail]
  | vf32 f => intro s; simp [serializeValue, Value.hasFail]
  | vf64 f => intro s; simp [serializeValue, Value.hasFail]
  | vchar c => intro s; simp [serializeValue, Value.hasFail]
  | vstr t => intro s; simp [serializeValue, Value.hasFail]
  | vbytes bs => intro s; simp [serializeValue, Value.hasFail]
  | vnone => intro s; simp [serializeValue, Value.hasFail]
  | vsome v =>
      intro s
      rw [Value.hasFail]
      constructor
      · rintro ⟨s', h⟩
        simp only [serializeValue] at h
        obtain ⟨s1, h1, -⟩ := except_bind_ok h
        exact (serializeValue_ok_iff v _).mp ⟨s1, h1⟩
      · intro hf
        obtain ⟨s1, h1⟩ := (serializeValue_ok_iff v (s.push "Some(")).mpr hf
        refine ⟨s1.push ")", ?_⟩
        simp only [serializeValue]
        rw [h1]
        rfl
  | vunit => intro s; simp [serializeValue, Value.hasFail]
  | vunitStruct name => intro s; simp [serializeValue, Value.hasFail]
  | vunitVariant variant => intro s; simp [serializeValue, Value.hasFail]
  | vnewtypeStruct name v =>
      intro s
      rw [Value.hasFail]
      constructor
      · rintro ⟨s', h⟩
        simp only [serializeValue] at h
        obtain ⟨s1, h1, -⟩ := except_bind_ok h
        exact (serializeValue_ok_iff v _).mp ⟨s1, h1⟩
      · intro hf
        obtain ⟨s1, h1⟩ :=
          (serializeValue_ok_iff v ((if s.struct_names then s.push name else s).push "(")).mpr hf
        refine ⟨s1.push ")", ?_⟩
        simp only [serializeValue]
        rw [h1]
        rfl
  | vnewtypeVariant variant v =>
      intro s
      rw [Value.hasFail]
      constructor
      · rintro ⟨s', h⟩
        simp only [serializeValue] at h
        obtain ⟨s1, h1, -⟩ := except_bind_ok h
        exact (serializeValue_ok_iff v _).mp ⟨s1, h1⟩
      · intro hf
        obtain ⟨s1, h1⟩ := (serializeValue_ok_iff v ((s.push variant).push "(")).mpr hf
        refine ⟨s1.push ")", ?_⟩
        simp only [serializeValue]
        rw [h1]
        rfl
  | vseq elems =>
      intro s
      rw [Value.hasFail]
      constructor
      · rintro ⟨s', h⟩
        simp only [serializeValue] at h
        obtain ⟨s1, h1, -⟩ := except_bind_ok h
        exact (serializeSeqElems_ok_iff elems _).mp ⟨s1, h1⟩
      · intro hf
        obtain ⟨s1, h1⟩ := (serializeSeqElems_ok_iff elems (serialize_seq_start s)).mpr hf
        refine ⟨seq_end s1, ?_⟩
        simp only [serializeValue]
        rw [h1]
        rfl
  | vtuple elems =>
      intro s
      rw [Value.hasFail]
      constructor
      · rintro ⟨s', h⟩
        simp only [serializeValue] at h
        obtain ⟨s1, h1, -⟩ := except_bind_ok h
        exact (serializeTupleElems_ok_iff elems _).mp ⟨s1, h1⟩
      · intro hf
        obtain ⟨s1, h1⟩ := (serializeTupleElems_ok_iff elems (serialize_tuple_start s)).mpr hf
        refine ⟨tuple_end s1, ?_⟩
        simp only [serializeValue]
        rw [h1]
        rfl
  | vtupleStruct name elems =>
      intro s
      rw [Value.hasFail]
      constructor
      · rintro ⟨s', h⟩
        simp only [serializeValue] at h
        obtain ⟨s1, h1, -⟩ := except_bind_ok h
        exact (serializeTupleElems_ok_iff elems _).mp ⟨s1, h1⟩
      · intro hf
        obtain ⟨s1, h1⟩ :=
          (serializeTupleElems_ok_iff elems (serialize_tuple_struct_start s name)).mpr hf
        refine ⟨tuple_end s1, ?_⟩
        simp only [serializeValue]
        rw [h1]
        rfl
  | vtupleVariant variant elems =>
      intro s
      rw [Value.hasFail]
      constructor
      · rintro ⟨s', h⟩
        simp only [serializeValue] at h
        obtain ⟨s1, h1, -⟩ := except_bind_ok h
        exact (serializeTupleElems_ok_iff elems _).mp ⟨s1, h1⟩
      · intro hf
        obtain ⟨s1, h1⟩ :=
          (serializeTupleElems_ok_iff elems (serialize_tuple_variant_start s variant)).mpr hf
        refine ⟨tuple_end s1, ?_⟩
        simp only [serializeValue]
        rw [h1]
        rfl
  | vmap entries =>
      intro s
      rw [Value.hasFail]
      constructor
      · rintro ⟨s', h⟩
        simp only [serializeValue] at h
        obtain ⟨s1, h1, -⟩ := except_bind_ok h
        exact (serializeMapEntries_ok_iff entries _).mp ⟨s1, h1⟩
      · intro hf
        obtain ⟨s1, h1⟩ := (serializeMapEntries_ok_iff entries (serialize_map_start s)).mpr hf
        refine ⟨map_end s1, ?_⟩
        simp only [serializeValue]
        rw [h1]
        rfl
  | vstruct name fields =>
      intro s
      rw [Value.hasFail]
      constructor
      · rintro ⟨s', h⟩
        simp only [serializeValue] at h
        obtain ⟨s1, h1, -⟩ := except_bind_ok h
        exact (serializeStructFields_ok_iff fields _).mp ⟨s1, h1⟩
      · intro hf
        obtain ⟨s1, h1⟩ :=
          (serializeStructFields_ok_iff fields (serialize_struct_start s name)).mpr hf
        refine ⟨struct_end s1, ?_⟩
        simp only [serializeValue]
        rw [h1]
        rfl
  | vstructVariant variant fields =>
      intro s
      rw [Value.hasFail]
      constructor
      · rintro ⟨s', h⟩
        simp only [serializeValue] at h
        obtain ⟨s1, h1, -⟩ := except_bind_ok h
        exact (serializeStructFields_ok_iff fields _).mp ⟨s1, h1⟩
      · intro hf
        obtain ⟨s1, h1⟩ :=
          (serializeStructFields_ok_iff fields (serialize_struct_variant_start s variant)).mpr hf
        refine ⟨struct_end s1, ?_⟩
        simp only [serializeValue]
        rw [h1]
        rfl
  | vfail msg => intro s; simp [serializeValue, Value.hasFail]

/-- The sequence-element loop succeeds from any state exactly when no
element contains a caller-signalled error. -/
theorem serializeSeqElems_ok_iff (vs : ValueList) : ∀ s : Serializer,
    (∃ s', serializeSeqElems s vs = .ok s') ↔ vs.hasFail = false := by
  cases vs with
  | nil => intro s; simp [serializeSeqElems, ValueList.hasFail]
  | cons v vs =>
      intro s
      rw [ValueList.hasFail]
      constructor
      · rintro ⟨s', h⟩
        simp only [serializeSeqElems] at h
        obtain ⟨s1, h1, h2⟩ := except_bind_ok h
        have hv := (serializeValue_ok_iff v _).mp ⟨s1, h1⟩
        have hvs := (serializeSeqElems_ok_iff vs _).mp ⟨s', h2⟩
        simp [hv, hvs]
      · intro hf
        rw [Bool.or_eq_false_iff] at hf
        obtain ⟨s1, h1⟩ := (serializeValue_ok_iff v s.writeIndent).mpr hf.1
        obtain ⟨s2, h2⟩ :=
          (serializeSeqElems_ok_iff vs ((s1.push ",").push s1.new_line)).mpr hf.2
        refine ⟨s2, ?_⟩
        simp only [serializeSeqElems]
        rw [h1]
        exact h2

/-- The tuple-element loop succeeds from any state exactly when no
element contains a caller-signalled error. -/
theorem serializeTupleElems_ok_iff (vs : ValueList) : ∀ s : Serializer,
    (∃ s', serializeTupleElems s vs = .ok s') ↔ vs.hasFail = false := by
  cases vs with
  | nil => intro s; simp [serializeTupleElems, ValueList.hasFail]
  | cons v vs =>
      intro s
      rw [ValueList.hasFail]
      constructor
      · rintro ⟨s', h⟩
        simp only [serializeTupleElems] at h
        obtain ⟨s1, h1, h2⟩ := except_bind_ok h
        have hv := (serializeValue_ok_iff v _).mp ⟨s1, h1⟩
        have hvs := (serializeTupleElems_ok_iff vs _).mp ⟨s', h2⟩
        simp [hv, hvs]
      · intro hf
        rw [Bool.or_eq_false_iff] at hf
        obtain ⟨s1, h1⟩ :=
          (serializeValue_ok_iff v (if s.separate_tuple_members then s.writeIndent else s)).mpr
            hf.1
        obtain ⟨s2, h2⟩ := (serializeTupleElems_ok_iff vs
          (if (s1.push ",").separate_tuple_members
            then (s1.push ",").push (s1.push ",").new_line
            else (s1.push ",").push (s1.push ",").space)).mpr hf.2
        refine ⟨s2, ?_⟩
        simp only [serializeTupleElems]
        rw [h1]
        exact h2

/-- The map-entry loop succeeds from any state exactly when no key or
value contains a caller-signalled error. -/
theorem serializeMapEntries_ok_iff (es : EntryList) : ∀ s : Serializer,
    (∃ s', serializeMapEntries s es = .ok s') ↔ es.hasFail = false := by
  cases es with
  | nil => intro s; simp [serializeMapEntries, EntryList.hasFail]
  | cons k v es =>
      intro s
      rw [EntryList.hasFail]
      constructor
      · rintro ⟨s', h⟩
        simp only [serializeMapEntries] at h
        obtain ⟨s1, h1, h2⟩ := except_bind_ok h
        obtain ⟨s2, h2a, h2b⟩ := except_bind_ok h2
        have hk := (serializeValue_ok_iff k _).mp ⟨s1, h1⟩
        have hv := (serializeValue_ok_iff v _).mp ⟨s2, h2a⟩
        have hes := (serializeMapEntries_ok_iff es _).mp ⟨s', h2b⟩
        simp [hk, hv, hes]
      · intro hf
        rw [Bool.or_eq_false_iff, Bool.or_eq_false_iff] at hf
        obtain ⟨s1, h1⟩ := (serializeValue_ok_iff k s.writeIndent).mpr hf.1.1
        obtain ⟨s2, h2⟩ := (serializeValue_ok_iff v ((s1.push ":").push s1.space)).mpr hf.1.2
        obtain ⟨s3, h3⟩ :=
          (serializeMapEntries_ok_iff es ((s2.push ",").push s2.new_line)).mpr hf.2
        refine ⟨s3, ?_⟩
        simp only [serializeMapEntries]
        rw [h1]
        show (serializeValue ((s1.push ":").push s1.space) v >>= _) = _
        rw [h2]
        exact h3

/-- The struct-field loop succeeds from any state exactly when no
field value contains a caller-signalled error. -/
theorem serializeStructFields_ok_iff (fs : FieldList) : ∀ s : Serializer,
    (∃ s', serializeStructFields s fs = .ok s') ↔ fs.hasFail = false := by
  cases fs with
  | nil => intro s; simp [serializeStructFields, FieldList.hasFail]
  | cons key v fs =>
      intro s
      rw [FieldList.hasFail]
      constructor
      · rintro ⟨s', h⟩
        simp only [serializeStructFields] at h
        obtain ⟨s1, h1, h2⟩ := except_bind_ok h
        have hv := (serializeValue_ok_iff v _).mp ⟨s1, h1⟩
        have hfs := (serializeStructFields_ok_iff fs _).mp ⟨s', h2⟩
        simp [hv, hfs]
      · intro hf
        rw [Bool.or_eq_false_iff] at hf
        obtain ⟨s1, h1⟩ :=
          (serializeValue_ok_iff v (((s.writeIndent.push key).push ":").push s.space)).mpr hf.1
        obtain ⟨s2, h2⟩ :=
          (serializeStructFields_ok_iff fs ((s1.push ",").push s1.new_line)).mpr hf.2
        refine ⟨s2, ?_⟩
        simp only [serializeStructFields]
        rw [h1]
        exact h2

end

/-- `end_indent` only appends to the buffer. -/
theorem end_indent_extends (s : Serializer) : ∃ w, s.end_indent.output = s.output ++ w :=
  ⟨_, rfl⟩

/-- C2: compact encoding (`to_string`) and pretty encoding with the
basic preset at the matching name-emission setting (`basic(false)`,
the very configuration `to_string` installs) produce byte-identical
output for every value of every shape. -/
theorem compact_eq_pretty_basic (v : Value) :
    to_string v = to_string_pretty v (PrettyConfig.basic false) := rfl

/-- C1 counterexample: on the unit struct named `Foo`, `to_string`
produces `()` while the basic preset with name emission enabled
produces `Foo`, so `to_string` is not equivalent to encoding with
`PrettyConfig::basic(true)`. -/
theorem to_string_ne_basic_true_at_unit_struct :
    to_string (.vunitStruct "Foo")
      ≠ to_string_pretty (.vunitStruct "Foo") (PrettyConfig.basic true) := by
  have h1 : to_string (Value.vunitStruct "Foo") = .ok "()" := rfl
  have h2 : to_string_pretty (Value.vunitStruct "Foo") (PrettyConfig.basic true)
      = .ok "Foo" := rfl
  rw [h1, h2]
  intro h
  exact absurd (Except.ok.inj h) (by decide)

/-- C1 (amended): `to_string` returns the same text as encoding with
the basic configuration preset with name emission disabled:
`to_string(v) = to_string_pretty(v, PrettyConfig::basic(false))` for
all `v`. -/
theorem to_string_eq_basic_false (v : Value) :
    to_string v = to_string_pretty v (PrettyConfig.basic false) := rfl

/-- C3: the indent depth starts at zero (the engines the entry points
build carry `indent := 0`), is never negative (it is a natural
number), returns to its pre-call value after every balanced value
visit, and is zero again at the end of a run that started at zero. -/
theorem indent_depth_invariant (s : Serializer) (v : Value) (s' sr : Serializer)
    (cfg : PrettyConfig)
    (h : serializeValue s v = .ok s')
    (hr : serializeValue { output := [], config := cfg, indent := 0 } v = .ok sr) :
    0 ≤ s'.indent ∧ s'.indent = s.indent ∧ sr.indent = 0 := by
  obtain ⟨-, hi, -⟩ := serializeValue_run v s s' h
  obtain ⟨-, hir, -⟩ := serializeValue_run v _ sr hr
  exact ⟨Nat.zero_le _, hi, hir⟩

/-- C3 witness: on the concrete two-field struct, a balanced visit
from depth zero ends at depth zero. -/
theorem indent_depth_invariant_witness :
    0 ≤ ({ output := "(x:4,y:7,)".data, config := PrettyConfig.basic false, indent := 0 } :
        Serializer).indent ∧
    ({ output := "(x:4,y:7,)".data, config := PrettyConfig.basic false, indent := 0 } :
        Serializer).indent
      = ({ output := [], config := PrettyConfig.basic false, indent := 0 } :
        Serializer).indent ∧
    ({ output := "(x:4,y:7,)".data, config := PrettyConfig.basic false, indent := 0 } :
        Serializer).indent = 0 :=
  indent_depth_invariant { output := [], config := PrettyConfig.basic false, indent := 0 }
    (.vstruct "MyStruct" (.cons "x" (.vf32 ⟨4, 0⟩) (.cons "y" (.vf32 ⟨7, 0⟩) .nil)))
    { output := "(x:4,y:7,)".data, config := PrettyConfig.basic false, indent := 0 }
    { output := "(x:4,y:7,)".data, config := PrettyConfig.basic false, indent := 0 }
    (PrettyConfig.basic false) rfl rfl

/-- C4 counterexample: under the default configuration, the tuple end
operation applied to a buffer holding `(` leaves the buffer holding
`)`, and `(` is not a prefix of `)`; so not every engine operation is
append-only. -/
theorem tuple_end_not_append_only :
    (tuple_end { output := "(".data, config := PrettyConfig.default, indent := 0 }).output
      = ")".data ∧
    ¬ ∃ t, (tuple_end
        { output := "(".data, config := PrettyConfig.default, indent := 0 }).output
      = "(".data ++ t := by
  constructor
  · rfl
  · rintro ⟨t, h⟩
    have h2 : [')'] = '(' :: t := h
    injection h2 with ha
    exact absurd ha (by decide)

/-- C4 (amended): for every complete value serialization, under every
configuration, the buffer before is a prefix of the buffer after (the
tuple-end trim removes at most `space().len()` characters, which never
reach past the tuple's own opening parenthesis); and each individual
operation is append-only except that trim: the tuple end operation
itself is append-only whenever the space string is empty (`add_space`
off, as in compact mode) or tuple members are separated. -/
theorem append_only_amended (s sv : Serializer) (v : Value)
    (h : serializeValue s v = .ok sv) :
    (∃ t, sv.output = s.output ++ t) ∧
    (s.config.add_space = false ∨ s.config.separate_tuple_members = true →
      ∃ t, (tuple_end s).output = s.output ++ t) := by
  obtain ⟨-, -, hext⟩ := serializeValue_run v s sv h
  refine ⟨hext, ?_⟩
  intro hspace
  unfold tuple_end
  by_cases hsep : s.separate_tuple_members
  · rw [if_pos hsep]
    exact extends_trans (end_indent_extends s) (push_extends _ ")")
  · rw [if_neg hsep]
    obtain hsp | hsep' := hspace
    · have hzero : s.space.length = 0 := by simp [Serializer.space, hsp]
      refine extends_trans ?_ (push_extends _ ")")
      refine ⟨[], ?_⟩
      simp [Serializer.popN, hzero, List.take_length]
    · exact absurd hsep' hsep

/-- C4 witness: serializing the empty tuple under the default
configuration — the trimming configuration, whose end pops the lone
opening parenthesis — still extends the prior (empty) buffer; and at
the compact configuration the tuple end operation is append-only. -/
theorem append_only_amended_witness :
    (∃ t, ({ output := ")".data, config := PrettyConfig.default, indent := 0 } :
        Serializer).output
      = ({ output := [], config := PrettyConfig.default, indent := 0 } :
        Serializer).output ++ t) ∧
    (∃ t, (tuple_end
        { output := [], config := PrettyConfig.basic false, indent := 0 }).output
      = ({ output := [], config := PrettyConfig.basic false, indent := 0 } :
        Serializer).output ++ t) :=
  ⟨(append_only_amended { output := [], config := PrettyConfig.default, indent := 0 }
      { output := ")".data, config := PrettyConfig.default, indent := 0 }
      (.vtuple .nil) rfl).1,
    (append_only_amended { output := [], config := PrettyConfig.basic false, indent := 0 }
      { output := "()".data, config := PrettyConfig.basic false, indent := 0 }
      .vunit rfl).2 (Or.inl rfl)⟩

/-- C5: the two-field named structure `MyStruct { x: 4.0, y: 7.0 }`
compact-encodes to exactly `(x:4,y:7,)`: the floats print with no
fractional part, every field is comma-terminated including the last,
and no struct name appears. -/
theorem my_struct_compact_encoding :
    to_string (.vstruct "MyStruct"
        (.cons "x" (.vf32 ⟨4, 0⟩) (.cons "y" (.vf32 ⟨7, 0⟩) .nil)))
      = .ok "(x:4,y:7,)" := rfl

/-- C6: string encoding surrounds the text with double quotes and
escapes exactly backslash and double quote (each preceded by a
backslash), every other character passing through verbatim; char
encoding surrounds the character with single quotes and escapes
exactly backslash and single quote. -/
theorem string_char_escaping (s : Serializer) (v : String) (c : Char) :
    (serialize_str s v).output = s.output ++ ('"' :: specEscapeStr v.data) ++ ['"'] ∧
    (serialize_char s c).output = s.output ++ ('\'' :: specEscapeChar c) ++ ['\''] := by
  constructor
  · simp only [serialize_str, Serializer.push, pushEscaped_eq_spec, List.append_assoc]
    rfl
  · unfold serialize_char specEscapeChar
    by_cases h : c = '\\' ∨ c = '\''
    · simp [h, Serializer.push, Serializer.pushChar]
    · simp [h, Serializer.push, Serializer.pushChar]

/-- C7: for every value of every fixed integer width (each width
constrained only to its own range), the emission appends the decimal
text of the value widened to the corresponding 64-bit type, and
integers of different widths holding the same numeric value produce
identical text. -/
theorem integer_width_widening (s : Serializer) (v8 v16 v32 v64 : Int)
    (u8 u16 u32 u64 : Nat)
    (h8a : -(2 ^ 7) ≤ v8) (h8b : v8 < 2 ^ 7)
    (h16a : -(2 ^ 15) ≤ v16) (h16b : v16 < 2 ^ 15)
    (h32a : -(2 ^ 31) ≤ v32) (h32b : v32 < 2 ^ 31)
    (hu8 : u8 < 2 ^ 8) (hu16 : u16 < 2 ^ 16) (hu32 : u32 < 2 ^ 32) :
    serialize_i8 s v8 = s.push (toString v8) ∧
    serialize_i16 s v16 = s.push (toString v16) ∧
    serialize_i32 s v32 = s.push (toString v32) ∧
    serialize_i64 s v64 = s.push (toString v64) ∧
    serialize_u8 s u8 = s.push (toString u8) ∧
    serialize_u16 s u16 = s.push (toString u16) ∧
    serialize_u32 s u32 = s.push (toString u32) ∧
    serialize_u64 s u64 = s.push (toString u64) ∧
    serialize_i8 s v8 = serialize_i16 s v8 ∧
    serialize_i8 s v8 = serialize_i32 s v8 ∧
    serialize_i8 s v8 = serialize_i64 s v8 ∧
    serialize_i16 s v16 = serialize_i32 s v16 ∧
    serialize_i16 s v16 = serialize_i64 s v16 ∧
    serialize_i32 s v32 = serialize_i64 s v32 ∧
    serialize_u8 s u8 = serialize_u16 s u8 ∧
    serialize_u8 s u8 = serialize_u32 s u8 ∧
    serialize_u8 s u8 = serialize_u64 s u8 ∧
    serialize_u16 s u16 = serialize_u32 s u16 ∧
    serialize_u16 s u16 = serialize_u64 s u16 ∧
    serialize_u32 s u32 = serialize_u64 s u32 := by
  have e8 : sext8 v8 = v8 := by
    unfold sext8
    omega
  have e16 : sext16 v16 = v16 := by
    unfold sext16
    omega
  have e32 : sext32 v32 = v32 := by
    unfold sext32
    omega
  have e8_16 : sext16 v8 = v8 := by
    unfold sext16
    omega
  have e8_32 : sext32 v8 = v8 := by
    unfold sext32
    omega
  have e16_32 : sext32 v16 = v16 := by
    unfold sext32
    omega
  have m8 : u8 % 2 ^ 8 = u8 := Nat.mod_eq_of_lt hu8
  have m16 : u16 % 2 ^ 16 = u16 := Nat.mod_eq_of_lt hu16
  have m32 : u32 % 2 ^ 32 = u32 := Nat.mod_eq_of_lt hu32
  have m8_16 : u8 % 2 ^ 16 = u8 := Nat.mod_eq_of_lt (by omega)
  have m8_32 : u8 % 2 ^ 32 = u8 := Nat.mod_eq_of_lt (by omega)
  have m16_32 : u16 % 2 ^ 32 = u16 := Nat.mod_eq_of_lt (by omega)
  refine ⟨?_, ?_, ?_, rfl, ?_, ?_, ?_, rfl, ?_, ?_, ?_, ?_, ?_, ?_, ?_, ?_, ?_, ?_, ?_, ?_⟩
  · show serialize_i64 s (sext8 v8) = s.push (toString v8)
    rw [e8]
    rfl
  · show serialize_i64 s (sext16 v16) = s.push (toString v16)
    rw [e16]
    rfl
  · show serialize_i64 s (sext32 v32) = s.push (toString v32)
    rw [e32]
    rfl
  · show serialize_u64 s (u8 % 2 ^ 8) = s.push (toString u8)
    rw [m8]
    rfl
  · show serialize_u64 s (u16 % 2 ^ 16) = s.push (toString u16)
    rw [m16]
    rfl
  · show serialize_u64 s (u32 % 2 ^ 32) = s.push (toString u32)
    rw [m32]
    rfl
  · show serialize_i64 s (sext8 v8) = serialize_i64 s (sext16 v8)
    rw [e8, e8_16]
  · show serialize_i64 s (sext8 v8) = serialize_i64 s (sext32 v8)
    rw [e8, e8_32]
  · show serialize_i64 s (sext8 v8) = serialize_i64 s v8
    rw [e8]
  · show serialize_i64 s (sext16 v16) = serialize_i64 s (sext32 v16)
    rw [e16, e16_32]
  · show serialize_i64 s (sext16 v16) = serialize_i64 s v16
    rw [e16]
  · show serialize_i64 s (sext32 v32) = serialize_i64 s v32
    rw [e32]
  · show serialize_u64 s (u8 % 2 ^ 8) = serialize_u64 s (u8 % 2 ^ 16)
    rw [m8, m8_16]
  · show serialize_u64 s (u8 % 2 ^ 8) = serialize_u64 s (u8 % 2 ^ 32)
    rw [m8, m8_32]
  · show serialize_u64 s (u8 % 2 ^ 8) = serialize_u64 s u8
    rw [m8]
  · show serialize_u64 s (u16 % 2 ^ 16) = serialize_u64 s (u16 % 2 ^ 32)
    rw [m16, m16_32]
  · show serialize_u64 s (u16 % 2 ^ 16) = serialize_u64 s u16
    rw [m16]
  · show serialize_u64 s (u32 % 2 ^ 32) = serialize_u64 s u32
    rw [m32]

/-- C7 witness: the 16-bit form at `1000` and the 32-bit unsigned form
at `300` — values outside the 8-bit range — emit the plain decimal
text, with every width's range hypothesis discharged at a concrete
in-range value. -/
theorem integer_width_widening_witness :
    serialize_i16 { output := [], config := PrettyConfig.basic false, indent := 0 } 1000
      = Serializer.push { output := [], config := PrettyConfig.basic false, indent := 0 }
          (toString (1000 : Int)) ∧
    serialize_u32 { output := [], config := PrettyConfig.basic false, indent := 0 } 300
      = Serializer.push { output := [], config := PrettyConfig.basic false, indent := 0 }
          (toString (300 : Nat)) :=
  ⟨(integer_width_widening
      { output := [], config := PrettyConfig.basic false, indent := 0 }
      (-5) 1000 100000 123456789 200 60000 300 10000000000
      (by decide) (by decide) (by decide) (by decide) (by decide) (by decide)
      (by decide) (by decide) (by decide)).2.1,
    (integer_width_widening
      { output := [], config := PrettyConfig.basic false, indent := 0 }
      (-5) 1000 100000 123456789 200 60000 300 10000000000
      (by decide) (by decide) (by decide) (by decide) (by decide) (by decide)
      (by decide) (by decide) (by decide)).2.2.2.2.2.2.1⟩

/-- C8: variant names are emitted unconditionally, for every variant
shape and every configuration: the unit variant emits exactly the
name, and every successful newtype-, tuple-, or struct-variant
serialization extends the buffer with text beginning with the variant
name — independently of the `struct_names` flag. -/
theorem variant_names_unconditional (s : Serializer) (variant : String)
    (v : Value) (elems : ValueList) (fields : FieldList) (s1 s2 s3 : Serializer)
    (h1 : serializeValue s (.vnewtypeVariant variant v) = .ok s1)
    (h2 : serializeValue s (.vtupleVariant variant elems) = .ok s2)
    (h3 : serializeValue s (.vstructVariant variant fields) = .ok s3) :
    serializeValue s (.vunitVariant variant) = .ok (s.push variant) ∧
    (∃ t, s1.output = (s.output ++ variant.data) ++ t) ∧
    (∃ t, s2.output = (s.output ++ variant.data) ++ t) ∧
    (∃ t, s3.output = (s.output ++ variant.data) ++ t) := by
  refine ⟨rfl, ?_, ?_, ?_⟩
  · simp only [serializeValue] at h1
    obtain ⟨sa, ha, hb⟩ := except_bind_ok h1
    injection hb with hb
    subst hb
    obtain ⟨-, -, hext⟩ := serializeValue_run v ((s.push variant).push "(") sa ha
    refine extends_trans (extends_trans ?_ hext) (push_extends sa ")")
    exact ⟨"(".data, by simp [Serializer.push]⟩
  · simp only [serializeValue] at h2
    obtain ⟨sa, ha, hb⟩ := except_bind_ok h2
    injection hb with hb
    subst hb
    obtain ⟨-, -, w, hw⟩ := tuple_variant_start_run s variant
    obtain ⟨-, -, t, ht⟩ :=
      serializeTupleElems_run elems (serialize_tuple_variant_start s variant) sa ha
    have hshape : sa.output = (s.output ++ variant.data) ++ ('(' :: (w ++ t)) := by
      rw [ht, hw, List.append_assoc, List.cons_append]
    obtain ⟨-, -, ht3⟩ := tuple_end_run sa hshape
    exact ht3
  · simp only [serializeValue] at h3
    obtain ⟨sa, ha, hb⟩ := except_bind_ok h3
    injection hb with hb
    subst hb
    obtain ⟨-, -, hext0⟩ := struct_variant_start_run s variant
    obtain ⟨-, -, hext⟩ :=
      serializeStructFields_run fields (serialize_struct_variant_start s variant) sa ha
    obtain ⟨-, -, hext3⟩ := struct_end_run sa
    exact extends_trans (extends_trans hext0 hext) hext3

/-- C8 witness: at the compact configuration, the variant name `A`
begins the output of each variant shape. -/
theorem variant_names_unconditional_witness :
    serializeValue { output := [], config := PrettyConfig.basic false, indent := 0 }
        (.vunitVariant "A")
      = .ok (Serializer.push
          { output := [], config := PrettyConfig.basic false, indent := 0 } "A") ∧
    (∃ t, "A(true)".data = (([] : List Char) ++ "A".data) ++ t) ∧
    (∃ t, "A()".data = (([] : List Char) ++ "A".data) ++ t) ∧
    (∃ t, "A()".data = (([] : List Char) ++ "A".data) ++ t) :=
  variant_names_unconditional
    { output := [], config := PrettyConfig.basic false, indent := 0 } "A"
    (.vbool true) .nil .nil
    { output := "A(true)".data, config := PrettyConfig.basic false, indent := 0 }
    { output := "A()".data, config := PrettyConfig.basic false, indent := 0 }
    { output := "A()".data, config := PrettyConfig.basic false, indent := 0 }
    rfl rfl rfl

/-- C9: the error type has exactly one kind (a caller-supplied custom
message); an encode call succeeds exactly when the value production
never signals such an error (every emission the engine performs itself
is infallible), and returns an error — necessarily a custom message —
exactly when the caller signals one. -/
theorem single_error_kind_and_engine_infallible :
    (∀ e : Error, ∃ m, e = .Message m) ∧
    (∀ v : Value, (∃ out, to_string v = .ok out) ↔ v.hasFail = false) ∧
    (∀ v : Value, (∃ m, to_string v = .error (.Message m)) ↔ v.hasFail = true) := by
  refine ⟨fun e => by cases e with | Message m => exact ⟨m, rfl⟩, ?_, ?_⟩
  · intro v
    constructor
    · rintro ⟨out, h⟩
      unfold to_string at h
      obtain ⟨sa, ha, -⟩ := except_bind_ok h
      exact (serializeValue_ok_iff v _).mp ⟨sa, ha⟩
    · intro hf
      obtain ⟨sa, ha⟩ := (serializeValue_ok_iff v
        { output := [], config := PrettyConfig.basic false, indent := 0 }).mpr hf
      refine ⟨String.mk sa.output, ?_⟩
      unfold to_string
      rw [ha]
      rfl
  · intro v
    constructor
    · rintro ⟨m, h⟩
      by_contra hne
      have hfalse : v.hasFail = false := by
        revert hne
        cases v.hasFail <;> simp
      obtain ⟨sa, ha⟩ := (serializeValue_ok_iff v
        { output := [], config := PrettyConfig.basic false, indent := 0 }).mpr hfalse
      unfold to_string at h
      rw [ha] at h
      exact Except.noConfusion h
    · intro hf
      cases hres : serializeValue
          { output := [], config := PrettyConfig.basic false, indent := 0 } v with
      | ok sa =>
          have := (serializeValue_ok_iff v _).mp ⟨sa, hres⟩
          rw [this] at hf
          exact Bool.noConfusion hf
      | error e =>
          cases e with
          | Message m =>
              refine ⟨m, ?_⟩
              unfold to_string
              rw [hres]
              rfl

/-- C10: for a zero-element tuple under a configuration with
`separate_tuple_members` disabled and `add_space` enabled, the tuple
end removes `space().len()` characters although no element ever
appended a separator, deleting the opening parenthesis: the empty
tuple encodes to `)` rather than `()`. -/
theorem empty_tuple_close_paren (cfg : PrettyConfig)
    (h1 : cfg.separate_tuple_members = false) (h2 : cfg.add_space = true) :
    to_string_pretty (.vtuple .nil) cfg = .ok ")" := by
  have hstart : serialize_tuple_start { output := [], config := cfg, indent := 0 }
      = { output := ['('], config := cfg, indent := 0 } := by
    unfold serialize_tuple_start
    simp only [Serializer.separate_tuple_members, Serializer.push]
    simp [h1]
  have hend : tuple_end { output := ['('], config := cfg, indent := 0 }
      = { output := [')'], config := cfg, indent := 0 } := by
    unfold tuple_end
    simp only [Serializer.separate_tuple_members, Serializer.space, Serializer.popN,
      Serializer.push]
    simp [h1, h2]
    all_goals decide
  unfold to_string_pretty
  simp only [serializeValue, serializeTupleElems, hstart, Bind.bind, Except.bind, hend]

/-- C10 witness: under the default pretty configuration the empty
tuple indeed encodes to `)`. -/
theorem empty_tuple_close_paren_witness :
    PrettyConfig.default.separate_tuple_members = false ∧
    PrettyConfig.default.add_space = true ∧
    to_string_pretty (.vtuple .nil) PrettyConfig.default = .ok ")" :=
  ⟨rfl, rfl, empty_tuple_close_paren PrettyConfig.default rfl rfl⟩
